import Mathlib

/-!
Verification development for the USB device lifecycle and descriptor-parsing
subsystem of bitvisor (src/drivers/usb/usb_device.c).

The embedding models the byte-level CONFIG descriptor walker
(`extract_config_descriptors`), the descriptor dispatcher (`parse_descriptor`),
the per-host device registry surgery (`free_device`, the device-list insertion
in `new_usb_device`) and the port-reset reactor (`handle_port_reset`).

Machine bytes are modelled as `Nat` (each byte `< 256` where it matters is
irrelevant for these claims: the code only moves bytes around and compares
small constants).  Buffers are `List Nat`.  Heap-allocated arrays that the C
code grows with `tack_on` are Lean lists; `tack_on(src, src_n, new, ...)`
copies `src_n` elements of the old array and appends the new ones, which is
`takePad src_n src ++ [new]` below (reads past the end of the source array
are modelled as zeroed elements).
-/

/-- USB wire constants, bit-exact (spec section 6): descriptor types. -/
def USB_DT_DEVICE : Nat := 1

def USB_DT_CONFIG : Nat := 2

def USB_DT_STRING : Nat := 3

def USB_DT_INTERFACE : Nat := 4

def USB_DT_ENDPOINT : Nat := 5

/-- Modelled from the spec: `USB_DT_CONFIG_SIZE`, the bare 9-byte
configuration-header size (the header defining it is not under src/). -/
def USB_DT_CONFIG_SIZE : Nat := 9

/-- Modelled from the spec: the device descriptor is a fixed 18-byte record
(the struct definition lives in a header that is not under src/). -/
def USB_DD_SIZE : Nat := 18

/-- `struct usb_endpoint_descriptor`: the raw bytes `tack_on` copied over the
record, the `wMaxPacketSize` field (16-bit little-endian at wire offset 4),
and the `extra` spill buffer. -/
structure EndpointDesc where
  raw : List Nat
  wMaxPacketSize : Nat
  extra : List Nat
deriving DecidableEq, Repr, Inhabited

/-- `struct usb_interface_descriptor` (one alternate setting): raw record
bytes, `extra` spill buffer, and the owned endpoint array. -/
structure AltSetting where
  raw : List Nat
  extra : List Nat
  endpoint : List EndpointDesc
deriving DecidableEq, Repr, Inhabited

/-- `struct usb_config_descriptor` together with its owned
`struct usb_interface` container (whose `altsetting` array and
`num_altsetting = altsetting.length` are the only fields the claims touch). -/
structure ConfigDesc where
  raw : List Nat
  extra : List Nat
  altsetting : List AltSetting
deriving DecidableEq, Repr, Inhabited

/-- `bNumInterfaces`: byte 4 of the configuration record (zero-filled when the
record is shorter, matching `tack_on`'s `memset`). -/
def bNumInterfaces (c : ConfigDesc) : Nat := c.raw.getD 4 0

/-- `bNumEndpoints`: byte 4 of the interface record. -/
def bNumEndpoints (a : AltSetting) : Nat := a.raw.getD 4 0

/-- An endpoint descriptor freshly built from its wire bytes: `memcpy` over a
zeroed struct makes `wMaxPacketSize` the little-endian 16-bit value at
offset 4 (zero-padded when the record is shorter). -/
def mkEndpointDesc (bytes : List Nat) : EndpointDesc :=
  { raw := bytes, wMaxPacketSize := bytes.getD 4 0 + 256 * bytes.getD 5 0, extra := [] }

/-- `tack_on`'s copy of the first `n` elements of an array: reads past the end
of the source are modelled as zeroed (default) elements. -/
def takePad (n : Nat) (l : List α) (d : α) : List α :=
  l.take n ++ List.replicate (n - l.length) d

/-- In-place update of the element at index `i` (identity when out of range),
modelling a write through a pointer into an array. -/
def modifyAt : List α → Nat → (α → α) → List α
  | [], _, _ => []
  | a :: l, 0, f => f a :: l
  | a :: l, n + 1, f => a :: modifyAt l n f

/-- Update of the last element of an array (the record `cdescp` points to). -/
def modifyLast (l : List α) (f : α → α) : List α :=
  modifyAt l (l.length - 1) f

/-- The local state of `extract_config_descriptors`' walk: the output
configuration array `*cdesc`, the global other bucket `*odesc`, the cursor
`idescp` (as the (configuration index, alt-setting index) the pointer aliases;
`cdescp` always aliases the last configuration and needs no field), the
counters `n_idesc`/`n_edesc`, and `last_bDescriptorType`. -/
structure ExtractState where
  cdesc : List ConfigDesc
  odesc : List Nat
  idescp : Option (Nat × Nat)
  nIdesc : Nat
  nEdesc : Nat
  lastType : Nat
deriving DecidableEq, Repr, Inhabited

/-- The cleared state at the top of `extract_config_descriptors`. -/
def initExtract : ExtractState :=
  { cdesc := [], odesc := [], idescp := none, nIdesc := 0, nEdesc := 0, lastType := 0 }

/-- One iteration of the `switch (deschead->bDescriptorType)` in
`extract_config_descriptors`, for a record of raw bytes `bytes` and type `ty`
(`last_bDescriptorType` is updated by the caller, after the switch). -/
def extractStep (ty : Nat) (bytes : List Nat) (st : ExtractState) : ExtractState :=
  if ty = USB_DT_CONFIG then
    -- append a configuration; reset the interface/endpoint counters; the
    -- fresh interface container holds an empty altsetting array
    { st with
      cdesc := st.cdesc ++ [{ raw := bytes, extra := [], altsetting := [] }],
      nIdesc := 0, nEdesc := 0 }
  else if ty = USB_DT_INTERFACE then
    match st.cdesc with
    | [] => st  -- "no config.": the record is dropped
    | _ :: _ =>
      let ci := st.cdesc.length - 1
      { st with
        cdesc := modifyAt st.cdesc ci (fun c =>
          { c with altsetting :=
              takePad st.nIdesc c.altsetting default ++ [{ raw := bytes, extra := [], endpoint := [] }] }),
        idescp := some (ci, st.nIdesc),
        nEdesc := 0,
        nIdesc := st.nIdesc + 1 }
  else if ty = USB_DT_ENDPOINT then
    match st.idescp with
    | none => st  -- "no interface.": the record is dropped
    | some (ci, ai) =>
      { st with
        cdesc := modifyAt st.cdesc ci (fun c =>
          { c with altsetting := modifyAt c.altsetting ai (fun a =>
              { a with endpoint := takePad st.nEdesc a.endpoint default ++ [mkEndpointDesc bytes] }) }),
        nEdesc := st.nEdesc + 1 }
  else
    -- other descriptor: routed by last_bDescriptorType
    if st.lastType = USB_DT_CONFIG then
      -- cdescp->extra (cdescp is non-null whenever lastType = CONFIG)
      { st with cdesc := modifyLast st.cdesc (fun c => { c with extra := c.extra ++ bytes }) }
    else if st.lastType = USB_DT_INTERFACE then
      match st.idescp with
      | none => st  -- the source dereferences a null idescp here
      | some (ci, ai) =>
        { st with cdesc := modifyAt st.cdesc ci (fun c =>
            { c with altsetting := modifyAt c.altsetting ai (fun a =>
                { a with extra := a.extra ++ bytes }) }) }
    else if st.lastType = USB_DT_ENDPOINT then
      -- `case USB_DT_ENDPOINT: break;` precedes the endpoint-extra append in
      -- the source, so the record is attributed to no bucket at all
      st
    else
      { st with odesc := st.odesc ++ bytes }

/-- The `do { ... } while (parsed < len)` walk of
`extract_config_descriptors`, with fuel (one unit per record; the caller
passes the buffer length, which suffices since every processed record has
`bLength >= 1`).  `rest` is the unparsed suffix of the buffer.  A record whose
`bLength` runs past the end of the buffer contributes only the remaining
bytes; a record of `bLength = 1` at the very end makes the source read the
type byte past the buffer, which the model reads as 0. -/
def extractLoop : Nat → List Nat → ExtractState → ExtractState
  | 0, _, st => st
  | fuel + 1, rest, st =>
    let bl := rest.headD 0
    if bl = 0 then st  -- "0 byte descriptor?!?!": abort the walk
    else
      let ty := rest.getD 1 0
      let st' := { extractStep ty (rest.take bl) st with lastType := ty }
      if rest.length ≤ bl then st'  -- parsed >= len: the walk ends
      else extractLoop fuel (rest.drop bl) st'

/-- `extract_config_descriptors(host, buf, len, &cdesc, &odesc)`.  The C
function's return value is `len` itself (not the parsed byte count), i.e.
`buf.length` here. -/
def extractConfigDescriptors (buf : List Nat) : ExtractState :=
  if buf.length = 0 then initExtract else extractLoop buf.length buf initExtract

/-- Bytes stored in one endpoint record (raw record plus its extra bucket). -/
def endpointBytes (e : EndpointDesc) : Nat := e.raw.length + e.extra.length

/-- Bytes stored in one alt-setting: its raw record, its extra bucket, and its
endpoints. -/
def altBytes (a : AltSetting) : Nat :=
  a.raw.length + a.extra.length + (a.endpoint.map endpointBytes).sum

/-- Bytes stored in one configuration sub-tree. -/
def configBytes (c : ConfigDesc) : Nat :=
  c.raw.length + c.extra.length + (c.altsetting.map altBytes).sum

/-- Total bytes attributed by the walk across all configuration records,
interface records, endpoint records, `extra` buffers and the global other
bucket. -/
def totalAttributed (st : ExtractState) : Nat :=
  st.odesc.length + (st.cdesc.map configBytes).sum

/-- Whether the records delimited by their `bLength` bytes exactly tile the
buffer, each with nonzero `bLength` (fuel as in `extractLoop`). -/
def tilesExactly : Nat → List Nat → Bool
  | 0, rest => rest.isEmpty
  | fuel + 1, rest =>
    if rest.isEmpty then true
    else
      let bl := rest.headD 0
      decide (bl ≠ 0) && decide (bl ≤ rest.length) &&
        (if rest.length ≤ bl then true else tilesExactly fuel (rest.drop bl))

/-- Whether no record of the stream is dropped by the walk: every INTERFACE
record has an open configuration, every ENDPOINT record an open alt-setting,
and no non-standard record immediately follows an ENDPOINT record.  `hasC`
and `hasI` track whether a configuration (resp. alt-setting) is open, `last`
the previous record's type. -/
def streamOk : Nat → Bool → Bool → Nat → List Nat → Bool
  | 0, _, _, _, _ => true
  | fuel + 1, hasC, hasI, last, rest =>
    let bl := rest.headD 0
    if bl = 0 then true
    else
      let ty := rest.getD 1 0
      let ok :=
        if ty = USB_DT_CONFIG then true
        else if ty = USB_DT_INTERFACE then hasC
        else if ty = USB_DT_ENDPOINT then hasI
        else decide (last ≠ USB_DT_ENDPOINT)
      ok &&
        (if rest.length ≤ bl then true
         else streamOk fuel (hasC || decide (ty = USB_DT_CONFIG))
                (hasI || decide (ty = USB_DT_INTERFACE)) ty (rest.drop bl))

/-- The number of CONFIG records in the stream (fuel as in `extractLoop`). -/
def countConfigRecords : Nat → List Nat → Nat
  | 0, _ => 0
  | fuel + 1, rest =>
    let bl := rest.headD 0
    if bl = 0 then 0
    else
      (if rest.getD 1 0 = USB_DT_CONFIG then 1 else 0) +
        (if rest.length ≤ bl then 0 else countConfigRecords fuel (rest.drop bl))

/-- The walk invariant of `extract_config_descriptors` on single-configuration
streams, tying the automaton flags of `streamOk` (`hasC`: a configuration is
open, `hasI`: an alt-setting is open, `last`: the previous record type) to the
walk state: the counters track the lengths of the arrays `cdescp`/`idescp`
alias, and `idescp` aliases the last alt-setting of the unique
configuration. -/
def ExtractInv (st : ExtractState) (hasC hasI : Bool) (last : Nat) : Prop :=
  st.lastType = last ∧
  (hasC = true ↔ st.cdesc ≠ []) ∧
  st.cdesc.length ≤ 1 ∧
  (∀ c, st.cdesc = [c] → st.nIdesc = c.altsetting.length) ∧
  (hasI = true ↔ st.idescp.isSome) ∧
  (∀ ci ai, st.idescp = some (ci, ai) → ci = 0 ∧
    ∃ c pre a, st.cdesc = [c] ∧ c.altsetting = pre ++ [a] ∧ ai = pre.length ∧
      st.nEdesc = a.endpoint.length) ∧
  (last = USB_DT_CONFIG → st.cdesc ≠ []) ∧
  (last = USB_DT_INTERFACE → st.idescp.isSome)

/-- A USB device node, restricted to the fields `parse_descriptor` touches:
the fixed 18-byte device descriptor and the owned configuration tree. -/
structure UsbDevice where
  descriptor : List Nat
  config : Option (List ConfigDesc)
deriving DecidableEq, Repr, Inhabited

/-- `bMaxPacketSize0`: byte 7 of the device descriptor. -/
def bMaxPacketSize0 (dev : UsbDevice) : Nat := dev.descriptor.getD 7 0

/-- The endpoint-0 descriptor `parse_descriptor` manufactures:
`zalloc_usb_endpoint_descriptor()` followed by a `wMaxPacketSize` store. -/
def synthEndpoint (v : Nat) : EndpointDesc :=
  { raw := [], wMaxPacketSize := v, extra := [] }

/-- The endpoint-0 synthesis in `parse_descriptor`'s CONFIG branch: only the
first alt-setting of the first configuration is touched, and only when it has
a non-null endpoint array; `tack_on(edesc, 1, idesc->endpoint,
idesc->bNumEndpoints, ...)` prepends the manufactured endpoint to the first
`bNumEndpoints` (the wire field, not the parsed count) entries. -/
def epSynthesize (dev : UsbDevice) (cds : List ConfigDesc) : List ConfigDesc :=
  match cds with
  | [] => []
  | c0 :: cs =>
    match c0.altsetting with
    | [] => c0 :: cs
    | a0 :: as0 =>
      match a0.endpoint with
      | [] => c0 :: cs
      | _ :: _ =>
        { c0 with altsetting :=
            { a0 with endpoint :=
                synthEndpoint (bMaxPacketSize0 dev) ::
                  takePad (bNumEndpoints a0) a0.endpoint default } :: as0 } :: cs

/-- `parse_descriptor(usbhc, desc, buf, len, dev)` with `len = buf.length`.
DEVICE: `memcpy(&dev->descriptor, buf, len)`; only the 18 bytes of the struct
are part of the modelled state (a longer response writes past it).
CONFIG: run the extraction; `l_cdesc` is the extractor's return value, i.e.
`len`; discard an incomplete descriptor (`bNumInterfaces != 0` yet
`l_cdesc <= USB_DT_CONFIG_SIZE`), otherwise install the new tree (freeing the
previous one) and synthesize endpoint 0.  All other types fall through
untouched. -/
def parseDescriptor (desc : Nat) (buf : List Nat) (dev : UsbDevice) : UsbDevice :=
  if desc = USB_DT_DEVICE then
    { dev with descriptor := buf.take USB_DD_SIZE ++ dev.descriptor.drop buf.length }
  else if desc = USB_DT_CONFIG then
    match (extractConfigDescriptors buf).cdesc with
    | [] => dev
    | c0 :: cs =>
      if bNumInterfaces c0 ≠ 0 ∧ buf.length ≤ USB_DT_CONFIG_SIZE then dev
      else { dev with config := some (epSynthesize dev (c0 :: cs)) }
  else dev

/-! ## Device registry, hooks, and the port reactor -/

/-- A `struct usb_device` node as it sits in the host's doubly-linked chain:
device address, port identifier, and the `prev`/`next` links (device ids). -/
structure DevNode where
  devnum : Nat
  portno : Nat
  prev : Option Nat
  next : Option Nat
deriving DecidableEq, Repr, Inhabited

/-- A `struct usb_hook` restricted to the fields `free_device` consults: an
identity and the back-link to the originating device (`hook->dev`). -/
structure UsbHook where
  id : Nat
  dev : Option Nat
deriving DecidableEq, Repr, Inhabited

/-- Per-host state: the device heap (an association list from device id to
node, standing for the allocator's memory), the chain head `host->device`,
the per-phase hook chains `host->hook[]`, whether `usb_get_bus` finds a bus,
the bus's externally visible `bus->device` mirror, and
`host->last_changed_port`. -/
structure HostReg where
  heap : List (Nat × DevNode)
  device : Option Nat
  hook : List (List UsbHook)
  hasBus : Bool
  busDevice : Option Nat
  lastChangedPort : Nat
deriving DecidableEq, Repr, Inhabited

/-- Dereference a device id in the heap. -/
def lookupNode : List (Nat × DevNode) → Nat → Option DevNode
  | [], _ => none
  | (j, n) :: h, i => if j = i then some n else lookupNode h i

/-- Write through a device pointer: update the node stored at id `i`. -/
def setNode : List (Nat × DevNode) → Nat → (DevNode → DevNode) → List (Nat × DevNode)
  | [], _, _ => []
  | (j, n) :: h, i, f =>
    if j = i then (j, f n) :: setNode h i f else (j, n) :: setNode h i f

/-- `free(dev)`: remove id `i` from the heap. -/
def delNode : List (Nat × DevNode) → Nat → List (Nat × DevNode)
  | [], _ => []
  | (j, n) :: h, i => if j = i then delNode h i else (j, n) :: delNode h i

/-- Modelled from the spec: `usb_hook_unregister` (src/drivers/usb/usb_hook.c
is not under src/) removes the given hook from its (host, phase) chain. -/
def hookUnregister (chain : List UsbHook) (hid : Nat) : List UsbHook :=
  chain.filter (fun x => x.id ≠ hid)

/-- The hook-eviction walk in `free_device`: traverse a snapshot of the chain
(`next_hook = hook->next` is saved before each callback) and unregister every
hook whose back-link is the device being freed. -/
def hookSweep (did : Nat) : List UsbHook → List UsbHook → List UsbHook
  | [], chain => chain
  | hk :: rest, chain =>
    hookSweep did rest (if hk.dev = some did then hookUnregister chain hk.id else chain)

/-- `free_device(host, dev)`: evict the device's hooks on every phase, then
splice the device out of the doubly-linked chain — if it is the head, advance
the head and refresh the `bus->device` mirror (`usb_get_bus` modelled from
the spec as the host's optional bus view); otherwise stitch
`dev->prev->next = dev->next` — then fix the successor's back link and free
the node.  Freeing the configuration tree and running the class handle's
`remove` are outside the modelled state. -/
def freeDevice (st : HostReg) (did : Nat) : HostReg :=
  let st1 := { st with hook := st.hook.map (fun c => hookSweep did c c) }
  match lookupNode st1.heap did with
  | none => st1  -- the source would dereference a dangling pointer
  | some dn =>
    let st2 :=
      if st1.device = some did then
        let st2a := { st1 with device := dn.next }
        if st2a.hasBus then { st2a with busDevice := dn.next } else st2a
      else
        -- ASSERT(dev->prev != NULL)
        match dn.prev with
        | none => st1  -- assertion failure; unreachable on a consistent chain
        | some p => { st1 with heap := setNode st1.heap p (fun n => { n with next := dn.next }) }
    let st3 :=
      match dn.next with
      | none => st2
      | some nx => { st2 with heap := setNode st2.heap nx (fun n => { n with prev := dn.prev }) }
    { st3 with heap := delNode st3.heap did }

/-- The net heap transformation of `free_device`'s chain splice for a node
`dn` stored at `did`: patch the predecessor's `next` (when `dn.prev` is
non-null; when `dn` is the head its `prev` is null and the source takes the
head branch, which leaves every `next` alone), patch the successor's `prev`,
then free the node.  `freeDevice` computes exactly this heap on consistent
chains. -/
def spliceHeap (h : List (Nat × DevNode)) (did : Nat) (dn : DevNode) :
    List (Nat × DevNode) :=
  let h1 :=
    match dn.prev with
    | none => h
    | some pp => setNode h pp (fun m => { m with next := dn.next })
  let h2 :=
    match dn.next with
    | none => h1
    | some nx => setNode h1 nx (fun m => { m with prev := dn.prev })
  delNode h2 did

/-- The device-list insertion of `new_usb_device` (the newborn comes from
`zalloc_usb_device`, so its links start out null): `dev->next = host->device;
if (dev->next) dev->next->prev = dev; host->device = dev;`. -/
def insertDevice (st : HostReg) (did devnum portno : Nat) : HostReg :=
  let dn : DevNode := { devnum := devnum, portno := portno, prev := none, next := st.device }
  let heap1 := (did, dn) :: st.heap
  let heap2 :=
    match st.device with
    | none => heap1
    | some nx => setNode heap1 nx (fun n => { n with prev := some did })
  { st with heap := heap2, device := some did }

/-- Modelled from the spec: `get_device_by_port` (not under src/) is an O(n)
scan of the device chain for the given port identifier.  The walk follows
`next` links with fuel; a dangling link would crash the source and yields
"not found" here. -/
def findByPort (h : List (Nat × DevNode)) : Nat → Option Nat → Nat → Option Nat
  | 0, _, _ => none
  | _ + 1, none, _ => none
  | fuel + 1, some i, port =>
    match lookupNode h i with
    | none => none
    | some n => if n.portno = port then some i else findByPort h fuel n.next port

/-- Modelled from the spec: `get_device_by_port(host, port)` with fuel the
heap size (enough for any consistent chain). -/
def get_device_by_port (st : HostReg) (port : Nat) : Option Nat :=
  findByPort st.heap st.heap.length st.device port

/-- `handle_port_reset(ub_host, portno, status, offset)`: build the 16-bit
flag `0x0001 << offset`, return 0 if the reset bit is clear; look up the
device on port `portno + 1` — if none, return 1; otherwise record the
last-changed port and free the device, returning 0. -/
def handle_port_reset (st : HostReg) (portno status offset : Nat) : Nat × HostReg :=
  let flag := (1 <<< offset) % 65536
  if status &&& flag = 0 then (0, st)
  else
    match get_device_by_port st (portno + 1) with
    | none => (1, st)
    | some did => (0, freeDevice { st with lastChangedPort := portno + 1 } did)

/-- The device chain rooted at `hd` threads the ids `L` through the heap:
each node's `prev` is the previous id (`p` at the root) and the chain ends at
a null `next`.  This is the registry's link-consistency invariant. -/
inductive Threads (h : List (Nat × DevNode)) : Option Nat → Option Nat → List Nat → Prop
  | nil (p : Option Nat) : Threads h p none []
  | cons (p : Option Nat) (i : Nat) (n : DevNode) (L : List Nat)
      (hl : lookupNode h i = some n) (hp : n.prev = p)
      (ht : Threads h (some i) n.next L) : Threads h p (some i) (i :: L)

/-! ## Concrete inputs for witnesses and counterexamples -/

/-- A lone INTERFACE record: nonzero `bLength`, exact tiling, yet dropped. -/
def cexBufC1 : List Nat := [2, USB_DT_INTERFACE]

/-- One configuration with two alt-settings of one endpoint each
(`wMaxPacketSize` 8 and 64). -/
def cexBufC2 : List Nat :=
  [9, 2, 41, 0, 1, 1, 0, 128, 50] ++ [9, 4, 0, 0, 1, 3, 1, 2, 0] ++
    [7, 5, 129, 3, 8, 0, 10] ++ [9, 4, 0, 1, 1, 3, 1, 2, 0] ++ [7, 5, 129, 3, 64, 0, 10]

/-- A device node whose descriptor reports `bMaxPacketSize0 = 8`. -/
def cexDevC2 : UsbDevice :=
  { descriptor := [18, 1, 0, 2, 0, 0, 0, 8, 0, 0, 0, 0, 0, 0, 0, 0, 0, 0], config := none }

/-- A 9-byte response: a 7-byte CONFIG record claiming one interface,
followed by a zero-length record. -/
def cexBufC7 : List Nat := [7, 2, 0, 0, 1, 0, 0, 0, 9]

/-- A device with no configuration tree yet. -/
def cexDevC7 : UsbDevice := { descriptor := List.replicate 18 0, config := none }

/-- A well-formed single-configuration stream: CONFIG(9), INTERFACE(9),
HID(9), ENDPOINT(7). -/
def wBufC1 : List Nat :=
  [9, 2, 34, 0, 1, 1, 0, 128, 50] ++ [9, 4, 0, 0, 1, 3, 1, 2, 0] ++
    [9, 33, 17, 1, 0, 1, 34, 52, 0] ++ [7, 5, 129, 3, 8, 0, 10]

/-- A single-alt-setting stream: CONFIG(9), INTERFACE(9), ENDPOINT(7). -/
def wBufC2 : List Nat :=
  [9, 2, 25, 0, 1, 1, 0, 128, 50] ++ [9, 4, 0, 0, 1, 3, 1, 2, 0] ++ [7, 5, 129, 3, 8, 0, 10]

/-- The configuration record `wBufC2`'s walk produces. -/
def wC2c0 : ConfigDesc :=
  { raw := [9, 2, 25, 0, 1, 1, 0, 128, 50], extra := [],
    altsetting := [{ raw := [9, 4, 0, 0, 1, 3, 1, 2, 0], extra := [],
                     endpoint := [mkEndpointDesc [7, 5, 129, 3, 8, 0, 10]] }] }

/-- A 9-byte CONFIG-only response claiming one interface (discard case). -/
def wBufC4 : List Nat := [9, 2, 9, 0, 1, 0, 0, 50, 0]

/-- The configuration record `wBufC4`'s walk produces. -/
def wC4c0 : ConfigDesc := { raw := [9, 2, 9, 0, 1, 0, 0, 50, 0], extra := [], altsetting := [] }

/-- An 8-byte DEVICE descriptor response. -/
def wBufC6 : List Nat := [18, 1, 0, 2, 0, 0, 0, 8]

/-- A device whose descriptor is filled with the marker byte 7. -/
def wDevC6 : UsbDevice := { descriptor := List.replicate 18 7, config := none }

/-- A host with one registered device (id 1, address 3, port 1) and one hook
back-linked to it. -/
def wHostC5 : HostReg :=
  { heap := [(1, { devnum := 3, portno := 1, prev := none, next := none })],
    device := some 1,
    hook := [[{ id := 10, dev := some 1 }], [], [{ id := 11, dev := none }]],
    hasBus := true, busDevice := some 1, lastChangedPort := 1 }

/-- An empty host whose bus mirror is consistent (both null). -/
def wHostC8 : HostReg :=
  { heap := [], device := none, hook := [[], [], []],
    hasBus := true, busDevice := none, lastChangedPort := 1 }

/-! ## Helper lemmas -/

theorem takePad_length_self (l : List α) (d : α) : takePad l.length l d = l := by
  simp [takePad]

theorem getD_take_of_lt (l : List Nat) (n i : Nat) (h : i < n) :
    (l.take n).getD i 0 = l.getD i 0 := by
  induction l generalizing n i with
  | nil => simp [List.take]
  | cons a l ih =>
    cases n with
    | zero => omega
    | succ n =>
      cases i with
      | zero => simp
      | succ i => simpa using ih n i (by omega)

theorem getD_drop_add (l : List Nat) (n i : Nat) :
    (l.drop n).getD i 0 = l.getD (n + i) 0 := by
  induction l generalizing n i with
  | nil => simp
  | cons a l ih =>
    cases n with
    | zero => simp
    | succ n => simp [Nat.succ_add, ih n i]

/-! ## Claims -/

/-- Claim C10: for every descriptor type other than DEVICE or CONFIG
(STRING, INTERFACE, ENDPOINT, or any unknown value), `parse_descriptor`
leaves the device node entirely unchanged. -/
theorem claimC10_other_types_frame (desc : Nat) (buf : List Nat) (dev : UsbDevice)
    (h1 : desc ≠ USB_DT_DEVICE) (h2 : desc ≠ USB_DT_CONFIG) :
    parseDescriptor desc buf dev = dev := by
  simp [parseDescriptor, h1, h2]

/-- Witness for C10 at type STRING. -/
theorem claimC10_other_types_frame_witness :
    USB_DT_STRING ≠ USB_DT_DEVICE ∧ USB_DT_STRING ≠ USB_DT_CONFIG ∧
      parseDescriptor USB_DT_STRING wBufC6 wDevC6 = wDevC6 :=
  ⟨by decide, by decide,
    claimC10_other_types_frame USB_DT_STRING wBufC6 wDevC6 (by decide) (by decide)⟩

/-- Claim C6: a DEVICE descriptor response of length `len` updates exactly the
first `min(len, 18)` bytes of `dev.descriptor` (the rest of the struct is
unchanged, and nothing else of the device node changes). -/
theorem claimC6_device_copy (buf : List Nat) (dev : UsbDevice)
    (hlen : dev.descriptor.length = USB_DD_SIZE) :
    (parseDescriptor USB_DT_DEVICE buf dev).descriptor.length = USB_DD_SIZE ∧
    (∀ i, i < min buf.length USB_DD_SIZE →
      (parseDescriptor USB_DT_DEVICE buf dev).descriptor.getD i 0 = buf.getD i 0) ∧
    (∀ i, min buf.length USB_DD_SIZE ≤ i →
      (parseDescriptor USB_DT_DEVICE buf dev).descriptor.getD i 0 = dev.descriptor.getD i 0) ∧
    (parseDescriptor USB_DT_DEVICE buf dev).config = dev.config := by
  have hd : (parseDescriptor USB_DT_DEVICE buf dev).descriptor =
      buf.take USB_DD_SIZE ++ dev.descriptor.drop buf.length := by
    simp [parseDescriptor]
  have hc : (parseDescriptor USB_DT_DEVICE buf dev).config = dev.config := by
    simp [parseDescriptor]
  refine ⟨?_, ?_, ?_, hc⟩
  · rw [hd]
    simp only [List.length_append, List.length_take, List.length_drop, hlen]
    omega
  · intro i hi
    rw [hd, List.getD_append]
    · exact getD_take_of_lt buf USB_DD_SIZE i (by omega)
    · simp only [List.length_take]
      omega
  · intro i hi
    rw [hd]
    rcases Nat.le_total buf.length USB_DD_SIZE with hb | hb
    · have htk : buf.take USB_DD_SIZE = buf := List.take_of_length_le hb
      rw [htk, List.getD_append_right buf _ _ i (by omega)]
      rw [getD_drop_add]
      congr 1
      omega
    · have hlen2 : (buf.take USB_DD_SIZE ++ dev.descriptor.drop buf.length).length =
          USB_DD_SIZE := by
        simp only [List.length_append, List.length_take, List.length_drop, hlen]
        omega
      rw [List.getD_eq_default _ _ (by omega : (buf.take USB_DD_SIZE ++
            dev.descriptor.drop buf.length).length ≤ i),
          List.getD_eq_default _ _ (by omega : dev.descriptor.length ≤ i)]

/-- Witness for C6: an 8-byte response against a marker-filled descriptor. -/
theorem claimC6_device_copy_witness :
    wDevC6.descriptor.length = USB_DD_SIZE ∧
    ((parseDescriptor USB_DT_DEVICE wBufC6 wDevC6).descriptor.length = USB_DD_SIZE ∧
    (∀ i, i < min wBufC6.length USB_DD_SIZE →
      (parseDescriptor USB_DT_DEVICE wBufC6 wDevC6).descriptor.getD i 0 = wBufC6.getD i 0) ∧
    (∀ i, min wBufC6.length USB_DD_SIZE ≤ i →
      (parseDescriptor USB_DT_DEVICE wBufC6 wDevC6).descriptor.getD i 0 =
        wDevC6.descriptor.getD i 0) ∧
    (parseDescriptor USB_DT_DEVICE wBufC6 wDevC6).config = wDevC6.config) :=
  ⟨by decide, claimC6_device_copy wBufC6 wDevC6 (by decide)⟩

/-- Claim C4: a parsed CONFIG descriptor claiming `bNumInterfaces > 0` whose
total parsed length is at most the 9-byte bare configuration-header size is
discarded entirely, leaving `dev.config` unchanged; otherwise the new tree
(with endpoint-0 synthesis) replaces `dev.config`. -/
theorem claimC4_discard_incomplete (buf : List Nat) (dev : UsbDevice)
    (c0 : ConfigDesc) (cs : List ConfigDesc)
    (hx : (extractConfigDescriptors buf).cdesc = c0 :: cs) :
    ((bNumInterfaces c0 ≠ 0 ∧ buf.length ≤ USB_DT_CONFIG_SIZE) →
        parseDescriptor USB_DT_CONFIG buf dev = dev) ∧
    (¬(bNumInterfaces c0 ≠ 0 ∧ buf.length ≤ USB_DT_CONFIG_SIZE) →
        (parseDescriptor USB_DT_CONFIG buf dev).config =
            some (epSynthesize dev (c0 :: cs)) ∧
          (parseDescriptor USB_DT_CONFIG buf dev).descriptor = dev.descriptor) := by
  constructor
  · intro hcond
    simp [parseDescriptor, USB_DT_DEVICE, USB_DT_CONFIG, hx, hcond]
  · intro hcond
    constructor <;> simp [parseDescriptor, USB_DT_DEVICE, USB_DT_CONFIG, hx, hcond]

/-- Witness for C4: the 9-byte incomplete configuration is discarded. -/
theorem claimC4_discard_incomplete_witness :
    (extractConfigDescriptors wBufC4).cdesc = wC4c0 :: [] ∧
      (bNumInterfaces wC4c0 ≠ 0 ∧ wBufC4.length ≤ USB_DT_CONFIG_SIZE) ∧
      parseDescriptor USB_DT_CONFIG wBufC4 cexDevC7 = cexDevC7 :=
  ⟨by decide, by decide,
    (claimC4_discard_incomplete wBufC4 cexDevC7 wC4c0 [] (by decide)).1 (by decide)⟩

/-- Counterexample to claim C2 as stated: after parsing `cexBufC2` (one
configuration, two alt-settings, `bMaxPacketSize0 = 8`), it is not the case
that every alt-setting's endpoint 0 has `wMaxPacketSize = bMaxPacketSize0`:
only the first alt-setting of the first configuration is synthesized, and the
second alt-setting's endpoint 0 is the parsed endpoint (`wMaxPacketSize =
64`). -/
theorem claimC2_cex :
    ¬ (∀ c ∈ (parseDescriptor USB_DT_CONFIG cexBufC2 cexDevC2).config.getD [],
        ∀ a ∈ c.altsetting,
          (a.endpoint.headD default).wMaxPacketSize = bMaxPacketSize0 cexDevC2) := by
  decide

/-- Claim C2 (amended): after parsing a CONFIG buffer, index 0 of the *first*
alt-setting of the *first* emitted configuration — provided it has at least
one parsed endpoint, its `bNumEndpoints` field matches the parsed count, and
the tree is installed — is a synthesized endpoint whose `wMaxPacketSize`
equals `dev.descriptor.bMaxPacketSize0`, with the parsed endpoints at indices
1..N in wire order; other alt-settings are left as parsed. -/
theorem claimC2_amended (buf : List Nat) (dev : UsbDevice)
    (c0 : ConfigDesc) (cs : List ConfigDesc) (a0 : AltSetting) (as0 : List AltSetting)
    (hx : (extractConfigDescriptors buf).cdesc = c0 :: cs)
    (halt : c0.altsetting = a0 :: as0)
    (hep : a0.endpoint ≠ [])
    (hnum : bNumEndpoints a0 = a0.endpoint.length)
    (hkeep : ¬(bNumInterfaces c0 ≠ 0 ∧ buf.length ≤ USB_DT_CONFIG_SIZE)) :
    (parseDescriptor USB_DT_CONFIG buf dev).config =
      some ({ c0 with altsetting :=
        { a0 with endpoint :=
            synthEndpoint (bMaxPacketSize0 dev) :: a0.endpoint } :: as0 } :: cs) ∧
    (synthEndpoint (bMaxPacketSize0 dev)).wMaxPacketSize = bMaxPacketSize0 dev := by
  refine ⟨?_, rfl⟩
  have hpad : takePad (bNumEndpoints a0) a0.endpoint default = a0.endpoint := by
    rw [hnum]; exact takePad_length_self _ _
  rcases he : a0.endpoint with _ | ⟨e, es⟩
  · exact absurd he hep
  · rw [he] at hpad
    simp [parseDescriptor, USB_DT_DEVICE, USB_DT_CONFIG, hx, hkeep, epSynthesize, halt,
      hpad, he]

/-- Witness for C2 (amended) on the single-alt-setting stream `wBufC2`. -/
theorem claimC2_amended_witness :
    (extractConfigDescriptors wBufC2).cdesc = wC2c0 :: [] ∧
      (parseDescriptor USB_DT_CONFIG wBufC2 cexDevC2).config =
        some ({ wC2c0 with altsetting :=
          { raw := [9, 4, 0, 0, 1, 3, 1, 2, 0], extra := [],
            endpoint := synthEndpoint (bMaxPacketSize0 cexDevC2) ::
              [mkEndpointDesc [7, 5, 129, 3, 8, 0, 10]] } :: [] } :: []) :=
  ⟨by decide,
    (claimC2_amended wBufC2 cexDevC2 wC2c0 []
      { raw := [9, 4, 0, 0, 1, 3, 1, 2, 0], extra := [],
        endpoint := [mkEndpointDesc [7, 5, 129, 3, 8, 0, 10]] } []
      (by decide) (by decide) (by decide) (by decide) (by decide)).1⟩

/-- Counterexample to claim C1 as stated: the stream `[2, 4]` is a single
record of nonzero `bLength` (an INTERFACE record with no open configuration),
yet the walk attributes none of its bytes to any bucket, so the attributed
total differs from the stream length. -/
theorem claimC1_cex :
    tilesExactly cexBufC1.length cexBufC1 = true ∧
      totalAttributed (extractConfigDescriptors cexBufC1) ≠ cexBufC1.length := by
  decide

/-- Counterexample to claim C7 as stated: on the 9-byte stream `cexBufC7`
(a 7-byte CONFIG record claiming one interface, then a zero-length record),
parsing stops at the zero-length record and a nonempty partial tree exists,
but it is *not* installed: the incomplete-descriptor check
(`bNumInterfaces != 0` with the full response length at most 9) discards it
and `dev.config` stays unchanged. -/
theorem claimC7_cex :
    (extractConfigDescriptors cexBufC7).cdesc ≠ [] ∧
      (parseDescriptor USB_DT_CONFIG cexBufC7 cexDevC7).config = none := by
  decide

theorem tilesExactly_nil (f : Nat) : tilesExactly f [] = true := by
  cases f <;> simp [tilesExactly]

theorem extractLoop_succ (fuel : Nat) (rest : List Nat) (st : ExtractState) :
    extractLoop (fuel + 1) rest st =
      if rest.headD 0 = 0 then st
      else if rest.length ≤ rest.headD 0 then
        { extractStep (rest.getD 1 0) (rest.take (rest.headD 0)) st with
          lastType := rest.getD 1 0 }
      else extractLoop fuel (rest.drop (rest.headD 0))
        { extractStep (rest.getD 1 0) (rest.take (rest.headD 0)) st with
          lastType := rest.getD 1 0 } := rfl

theorem extractLoop_stops_at_zero (fT : Nat) :
    ∀ (pre rest rest' : List Nat) (st : ExtractState) (fA fB : Nat),
      tilesExactly fT pre = true → pre.length ≤ fT →
      pre.length < fA → pre.length < fB →
      extractLoop fA (pre ++ 0 :: rest) st = extractLoop fB (pre ++ 0 :: rest') st := by
  induction fT with
  | zero =>
    intro pre rest rest' st fA fB htiles hlen hA hB
    have hpre : pre = [] := by
      cases pre with
      | nil => rfl
      | cons a l => simp [tilesExactly] at htiles
    subst hpre
    obtain ⟨a, rfl⟩ : ∃ a, fA = a + 1 := ⟨fA - 1, by omega⟩
    obtain ⟨b, rfl⟩ : ∃ b, fB = b + 1 := ⟨fB - 1, by omega⟩
    simp [extractLoop]
  | succ fT ih =>
    intro pre rest rest' st fA fB htiles hlen hA hB
    cases pre with
    | nil =>
      obtain ⟨a, rfl⟩ : ∃ a, fA = a + 1 := ⟨fA - 1, by omega⟩
      obtain ⟨b, rfl⟩ : ∃ b, fB = b + 1 := ⟨fB - 1, by omega⟩
      simp [extractLoop]
    | cons x p =>
      obtain ⟨a, rfl⟩ : ∃ a, fA = a + 1 := ⟨fA - 1, by omega⟩
      obtain ⟨b, rfl⟩ : ∃ b, fB = b + 1 := ⟨fB - 1, by omega⟩
      simp only [tilesExactly, List.isEmpty_cons, List.headD_cons, Bool.false_eq_true,
        if_false, Bool.and_eq_true, decide_eq_true_eq] at htiles
      obtain ⟨⟨hx0, hxle⟩, hrest⟩ := htiles
      have hty : ((x :: p) ++ 0 :: rest).getD 1 0 = ((x :: p) ++ 0 :: rest').getD 1 0 := by
        cases p <;> rfl
      rw [extractLoop_succ, extractLoop_succ]
      simp only [List.cons_append, List.headD_cons, List.length_cons, List.length_append]
      rw [if_neg hx0, if_neg hx0]
      have hxle' : x ≤ p.length + 1 := by
        simpa using hxle
      rw [if_neg (show ¬p.length + (rest.length + 1) + 1 ≤ x by omega),
        if_neg (show ¬p.length + (rest'.length + 1) + 1 ≤ x by omega)]
      have htake : (x :: (p ++ 0 :: rest)).take x = (x :: (p ++ 0 :: rest')).take x := by
        have h1 : (x :: (p ++ 0 :: rest)).take x = ((x :: p) ++ 0 :: rest).take x := rfl
        have h2 : (x :: (p ++ 0 :: rest')).take x = ((x :: p) ++ 0 :: rest').take x := rfl
        rw [h1, h2, List.take_append_of_le_length hxle, List.take_append_of_le_length hxle]
      have hdropA : (x :: (p ++ 0 :: rest)).drop x = (x :: p).drop x ++ 0 :: rest := by
        have h1 : (x :: (p ++ 0 :: rest)).drop x = ((x :: p) ++ 0 :: rest).drop x := rfl
        rw [h1, List.drop_append_of_le_length hxle]
      have hdropB : (x :: (p ++ 0 :: rest')).drop x = (x :: p).drop x ++ 0 :: rest' := by
        have h1 : (x :: (p ++ 0 :: rest')).drop x = ((x :: p) ++ 0 :: rest').drop x := rfl
        rw [h1, List.drop_append_of_le_length hxle]
      have hty' : (x :: (p ++ 0 :: rest)).getD 1 0 = (x :: (p ++ 0 :: rest')).getD 1 0 := hty
      rw [hdropA, hdropB, htake, hty']
      apply ih
      · by_cases hxeq : (x :: p).length ≤ x
        · have : (x :: p).drop x = [] := by
            apply List.drop_eq_nil_of_le hxeq
          rw [this]; exact tilesExactly_nil fT
        · rw [if_neg hxeq] at hrest
          exact hrest
      · simp only [List.length_drop, List.length_cons]
        simp only [List.length_cons] at hlen
        omega
      · simp only [List.length_drop, List.length_cons]
        simp only [List.length_cons] at hA
        omega
      · simp only [List.length_drop, List.length_cons]
        simp only [List.length_cons] at hB
        omega

theorem claimC7_amended (pre rest : List Nat) (dev : UsbDevice)
    (c0 : ConfigDesc) (cs : List ConfigDesc)
    (hpre : tilesExactly pre.length pre = true)
    (hx : (extractConfigDescriptors (pre ++ 0 :: rest)).cdesc = c0 :: cs)
    (hkeep : ¬(bNumInterfaces c0 ≠ 0 ∧ (pre ++ 0 :: rest).length ≤ USB_DT_CONFIG_SIZE)) :
    extractConfigDescriptors (pre ++ 0 :: rest) = extractConfigDescriptors (pre ++ [0]) ∧
    (parseDescriptor USB_DT_CONFIG (pre ++ 0 :: rest) dev).config =
      some (epSynthesize dev (c0 :: cs)) := by
  constructor
  · have hA : extractConfigDescriptors (pre ++ 0 :: rest) =
        extractLoop (pre ++ 0 :: rest).length (pre ++ 0 :: rest) initExtract := by
      simp [extractConfigDescriptors]
    have hB : extractConfigDescriptors (pre ++ [0]) =
        extractLoop (pre ++ [0]).length (pre ++ [0]) initExtract := by
      simp [extractConfigDescriptors]
    rw [hA, hB]
    exact extractLoop_stops_at_zero pre.length pre rest [] initExtract _ _ hpre le_rfl
      (by simp) (by simp)
  · have hlen : (pre ++ 0 :: rest).length = pre.length + (rest.length + 1) := by simp
    rw [hlen] at hkeep
    simp [parseDescriptor, USB_DT_DEVICE, USB_DT_CONFIG, hx, hkeep]

theorem claimC7_amended_witness :
    extractConfigDescriptors (wBufC2 ++ 0 :: [99, 88]) =
        extractConfigDescriptors (wBufC2 ++ [0]) ∧
      (parseDescriptor USB_DT_CONFIG (wBufC2 ++ 0 :: [99, 88]) cexDevC2).config =
        some (epSynthesize cexDevC2 (wC2c0 :: [])) :=
  claimC7_amended wBufC2 [99, 88] cexDevC2 wC2c0 [] (by decide) (by decide) (by decide)

theorem findByPort_of_no_match (h : List (Nat × DevNode)) (port : Nat)
    (p hd : Option Nat) (L : List Nat) (ht : Threads h p hd L) :
    ∀ fuel, (∀ i ∈ L, ∀ n, lookupNode h i = some n → n.portno ≠ port) →
      L.length ≤ fuel → findByPort h fuel hd port = none := by
  induction ht with
  | nil p =>
    intro fuel _ _
    cases fuel <;> simp [findByPort]
  | cons p i n L hl hp ht ih =>
    intro fuel hno hfuel
    obtain ⟨f, rfl⟩ : ∃ f, fuel = f + 1 := ⟨fuel - 1, by simp at hfuel; omega⟩
    have hne : n.portno ≠ port := hno i (by simp) n hl
    simp only [findByPort, hl, if_neg hne]
    exact ih f (fun j hj => hno j (by simp [hj])) (by simp at hfuel; omega)

/-- Claim C9: when the reset bit (at the given offset) is set for a port with
no registered device, `handle_port_reset` returns success (the no-eviction
return value 1) and the whole host state — device registry and last-changed
port slot included — is unchanged. -/
theorem claimC9_reset_unknown_port (st : HostReg) (portno status offset : Nat)
    (L : List Nat)
    (ht : Threads st.heap none st.device L)
    (hbit : status &&& ((1 <<< offset) % 65536) ≠ 0)
    (hport : ∀ i ∈ L, ∀ n, lookupNode st.heap i = some n → n.portno ≠ portno + 1)
    (hfuel : L.length ≤ st.heap.length) :
    handle_port_reset st portno status offset = (1, st) := by
  have hfind : get_device_by_port st (portno + 1) = none :=
    findByPort_of_no_match st.heap (portno + 1) none st.device L ht st.heap.length hport hfuel
  simp [handle_port_reset, get_device_by_port] at hfind ⊢
  simp [hbit, hfind]

/-- Witness for C9: a reset bit on an empty registry. -/
theorem claimC9_reset_unknown_port_witness :
    handle_port_reset wHostC8 0 1 0 = (1, wHostC8) :=
  claimC9_reset_unknown_port wHostC8 0 1 0 [] (Threads.nil none) (by decide)
    (by simp) (by decide)

theorem lookupNode_set (h : List (Nat × DevNode)) (key q : Nat) (f : DevNode → DevNode) :
    lookupNode (setNode h key f) q =
      if q = key then (lookupNode h key).map f else lookupNode h q := by
  induction h with
  | nil => simp [lookupNode, setNode]
  | cons p t ih =>
    obtain ⟨k, n⟩ := p
    by_cases hk : k = key
    · subst hk
      by_cases hq : k = q
      · subst hq
        simp [lookupNode, setNode]
      · simp [lookupNode, setNode, hq, Ne.symm hq, ih]
    · by_cases hq : k = q
      · subst hq
        simp [lookupNode, setNode, hk, Ne.symm hk]
      · simp [lookupNode, setNode, hk, hq, ih]

theorem lookupNode_del (h : List (Nat × DevNode)) (key q : Nat) :
    lookupNode (delNode h key) q = if q = key then none else lookupNode h q := by
  induction h with
  | nil => simp [lookupNode, delNode]
  | cons p t ih =>
    obtain ⟨k, n⟩ := p
    by_cases hk : k = key
    · subst hk
      by_cases hq : k = q
      · subst hq
        simp [lookupNode, delNode, ih]
      · simp [lookupNode, delNode, hq, ih]
    · by_cases hq : k = q
      · subst hq
        simp [lookupNode, delNode, hk, Ne.symm hk]
      · simp [lookupNode, delNode, hk, hq, ih]

theorem threads_frame (h h' : List (Nat × DevNode)) (p hd : Option Nat) (L : List Nat)
    (ht : Threads h p hd L)
    (hagree : ∀ i ∈ L, lookupNode h' i = lookupNode h i) : Threads h' p hd L := by
  induction ht with
  | nil p => exact Threads.nil p
  | cons p i n L hl hp ht ih =>
    exact Threads.cons p i n L (by rw [hagree i (by simp)]; exact hl) hp
      (ih (fun j hj => hagree j (by simp [hj])))

theorem threads_lookup_mem (h : List (Nat × DevNode)) (p hd : Option Nat) (L : List Nat)
    (ht : Threads h p hd L) : ∀ i ∈ L, ∃ n, lookupNode h i = some n := by
  induction ht with
  | nil p => simp
  | cons p i n L hl hp ht ih =>
    intro j hj
    rcases List.mem_cons.mp hj with rfl | hj
    · exact ⟨n, hl⟩
    · exact ih j hj

theorem threads_list_cons_inv (h : List (Nat × DevNode)) (p hd : Option Nat)
    (b : Nat) (L' : List Nat) (ht : Threads h p hd (b :: L')) :
    hd = some b ∧ ∃ n, lookupNode h b = some n ∧ n.prev = p ∧ Threads h (some b) n.next L' := by
  cases ht with
  | cons _ _ n _ hl hp htail => exact ⟨rfl, n, hl, hp, htail⟩

theorem threads_list_nil_inv (h : List (Nat × DevNode)) (p hd : Option Nat)
    (ht : Threads h p hd []) : hd = none := by
  cases ht with
  | nil => rfl

theorem threads_mid_links (h : List (Nat × DevNode)) (did : Nat) (dn : DevNode)
    (hdn : lookupNode h did = some dn) :
    ∀ (A : List Nat) (p hd : Option Nat) (B : List Nat),
      Threads h p hd (A ++ did :: B) →
      ((A = [] → dn.prev = p) ∧
       (A ≠ [] → ∃ a0, dn.prev = some a0 ∧ a0 ∈ A) ∧
       (∀ nx, dn.next = some nx → nx ∈ B)) := by
  intro A
  induction A with
  | nil =>
    intro p hd B ht
    simp only [List.nil_append] at ht
    obtain ⟨rfl, n, hl, hp, htail⟩ := threads_list_cons_inv h p hd did B ht
    rw [hl] at hdn
    obtain rfl : dn = n := (Option.some.inj hdn).symm
    refine ⟨fun _ => hp, fun hne => absurd rfl hne, ?_⟩
    intro nx hnx
    cases B with
    | nil =>
      have := threads_list_nil_inv h (some did) dn.next htail
      rw [this] at hnx
      exact absurd hnx (by simp)
    | cons b B' =>
      obtain ⟨hnext, _⟩ := threads_list_cons_inv h (some did) dn.next b B' htail
      rw [hnext] at hnx
      simp [Option.some.inj hnx]
  | cons a A' ih =>
    intro p hd B ht
    obtain ⟨rfl, na, hla, hpa, hta⟩ := threads_list_cons_inv h p hd a (A' ++ did :: B)
      (by simpa using ht)
    obtain ⟨h1, h2, h3⟩ := ih (some a) na.next B hta
    refine ⟨fun hne => absurd hne (by simp), ?_, h3⟩
    intro _
    by_cases hA' : A' = []
    · exact ⟨a, h1 hA', by simp⟩
    · obtain ⟨a0, ha0, ha0mem⟩ := h2 hA'
      exact ⟨a0, ha0, by simp [ha0mem]⟩

theorem lookupNode_splice_did (h : List (Nat × DevNode)) (did : Nat) (dn : DevNode) :
    lookupNode (spliceHeap h did dn) did = none := by
  unfold spliceHeap
  rcases dn.prev with _ | pp <;> rcases dn.next with _ | nx <;>
    simp [lookupNode_del]

theorem lookupNode_splice_other (h : List (Nat × DevNode)) (did : Nat) (dn : DevNode)
    (j : Nat) (hj1 : j ≠ did) (hj2 : dn.prev ≠ some j) (hj3 : dn.next ≠ some j) :
    lookupNode (spliceHeap h did dn) j = lookupNode h j := by
  unfold spliceHeap
  rcases hp : dn.prev with _ | pp <;> rcases hn : dn.next with _ | nx
  · simp [lookupNode_del, hj1]
  · have : j ≠ nx := fun e => hj3 (by rw [hn, e])
    simp [lookupNode_del, lookupNode_set, hj1, this]
  · have : j ≠ pp := fun e => hj2 (by rw [hp, e])
    simp [lookupNode_del, lookupNode_set, hj1, this]
  · have h4 : j ≠ pp := fun e => hj2 (by rw [hp, e])
    have h5 : j ≠ nx := fun e => hj3 (by rw [hn, e])
    simp [lookupNode_del, lookupNode_set, hj1, h4, h5]

theorem lookupNode_splice_prev (h : List (Nat × DevNode)) (did : Nat) (dn : DevNode)
    (pp : Nat) (hpp : dn.prev = some pp) (h1 : pp ≠ did) (h2 : dn.next ≠ some pp) :
    lookupNode (spliceHeap h did dn) pp =
      (lookupNode h pp).map (fun m => { m with next := dn.next }) := by
  unfold spliceHeap
  rcases hn : dn.next with _ | nx
  · simp [hpp, lookupNode_del, lookupNode_set, h1]
  · have : pp ≠ nx := fun e => h2 (by rw [hn, e])
    simp [hpp, hn, lookupNode_del, lookupNode_set, h1, this]

theorem lookupNode_splice_next (h : List (Nat × DevNode)) (did : Nat) (dn : DevNode)
    (nx : Nat) (hnx : dn.next = some nx) (h1 : nx ≠ did) (h2 : dn.prev ≠ some nx) :
    lookupNode (spliceHeap h did dn) nx =
      (lookupNode h nx).map (fun m => { m with prev := dn.prev }) := by
  unfold spliceHeap
  rcases hp : dn.prev with _ | pp
  · simp [hnx, hp, lookupNode_del, lookupNode_set, h1]
  · have : nx ≠ pp := fun e => h2 (by rw [hp, e])
    simp [hnx, hp, lookupNode_del, lookupNode_set, h1, this]

theorem hookSweep_clean (did : Nat) :
    ∀ (S C : List UsbHook), (∀ x ∈ C, x.dev = some did → x ∈ S) →
      ∀ x ∈ hookSweep did S C, x.dev ≠ some did := by
  intro S
  induction S with
  | nil =>
    intro C hsub x hx hdev
    exact absurd (hsub x hx hdev) (List.not_mem_nil x)
  | cons hk rest ih =>
    intro C hsub x hx
    by_cases hdev : hk.dev = some did
    · refine ih (hookUnregister C hk.id) ?_ x (by simpa [hookSweep, hdev] using hx)
      intro y hy hydev
      have hyC : y ∈ C ∧ ¬y.id = hk.id := by
        simpa [hookUnregister, List.mem_filter] using hy
      rcases List.mem_cons.mp (hsub y hyC.1 hydev) with rfl | hmem
      · exact absurd rfl hyC.2
      · exact hmem
    · refine ih C ?_ x (by simpa [hookSweep, hdev] using hx)
      intro y hy hydev
      rcases List.mem_cons.mp (hsub y hy hydev) with rfl | hmem
      · exact absurd hydev hdev
      · exact hmem

theorem threads_splice (h : List (Nat × DevNode)) (did : Nat) (dn : DevNode)
    (hdn : lookupNode h did = some dn) :
    ∀ (A : List Nat) (p hd : Option Nat) (B : List Nat),
      Threads h p hd (A ++ did :: B) →
      (A ++ did :: B).Nodup →
      (∀ pp, p = some pp → pp ∉ A ++ did :: B) →
      Threads (spliceHeap h did dn) p (if A = [] then dn.next else hd) (A ++ B) := by
  intro A
  induction A with
  | nil =>
    intro p hd B ht hnd hpok
    simp only [List.nil_append] at ht hnd hpok ⊢
    simp only [if_true]
    obtain ⟨rfl, n, hl, hp, htail⟩ := threads_list_cons_inv h p hd did B ht
    have hdn' := hdn
    rw [hl] at hdn'
    obtain rfl : dn = n := (Option.some.inj hdn').symm
    cases B with
    | nil =>
      rw [threads_list_nil_inv h (some did) dn.next htail]
      exact Threads.nil p
    | cons b B' =>
      obtain ⟨hnext, nb, hlb, hpb, htb⟩ := threads_list_cons_inv h (some did) dn.next b B' htail
      rw [hnext]
      have hnddid : did ∉ b :: B' := (List.nodup_cons.mp hnd).1
      have hndb : b ∉ B' := (List.nodup_cons.mp (List.nodup_cons.mp hnd).2).1
      have hbdid : b ≠ did := fun e => hnddid (by simp [e])
      have hprevb : dn.prev ≠ some b := by
        intro he
        rw [hp] at he
        exact hpok b he (by simp)
      refine Threads.cons p b { nb with prev := dn.prev } B' ?_ ?_ ?_
      · rw [lookupNode_splice_next h did dn b hnext hbdid hprevb, hlb]
        rfl
      · show dn.prev = p
        exact hp
      · show Threads (spliceHeap h did dn) (some b) nb.next B'
        refine threads_frame h _ (some b) nb.next B' htb ?_
        intro j hj
        have hjdid : j ≠ did := fun e => hnddid (List.mem_cons_of_mem b (e ▸ hj))
        have hjb : j ≠ b := fun e => hndb (e ▸ hj)
        have hjprev : dn.prev ≠ some j := by
          intro he
          rw [hp] at he
          exact hpok j he (by simp [hj])
        have hjnext : dn.next ≠ some j := by
          rw [hnext]
          intro he
          exact hjb (Option.some.inj he).symm
        exact lookupNode_splice_other h did dn j hjdid hjprev hjnext
  | cons a A' ih =>
    intro p hd B ht hnd hpok
    obtain ⟨rfl, na, hla, hpa, hta⟩ := threads_list_cons_inv h p hd a (A' ++ did :: B)
      (by simpa using ht)
    have hnd' : (A' ++ did :: B).Nodup := (List.nodup_cons.mp (by simpa using hnd)).2
    have hamem : a ∉ A' ++ did :: B := (List.nodup_cons.mp (by simpa using hnd)).1
    have hIH := ih (some a) na.next B hta hnd'
      (fun pp hpp => by rw [← Option.some.inj hpp]; exact hamem)
    have hadid : a ≠ did := fun e => hamem (by simp [e])
    have hanb : ∀ nx, dn.next = some nx → nx ∈ B :=
      (threads_mid_links h did dn hdn A' (some a) na.next B hta).2.2
    rw [if_neg (List.cons_ne_nil a A')]
    show Threads (spliceHeap h did dn) p (some a) ((a :: A') ++ B)
    by_cases hA' : A' = []
    · subst hA'
      simp only [List.nil_append] at hta hIH
      obtain ⟨hanext, n2, hl2, hp2, ht2⟩ := threads_list_cons_inv h (some a) na.next did B hta
      have hdn' := hdn
      rw [hl2] at hdn'
      obtain rfl : dn = n2 := (Option.some.inj hdn').symm
      have hprev : dn.prev = some a := hp2
      have hnexta : dn.next ≠ some a := by
        intro he
        exact hamem (by simp [hanb a he])
      refine Threads.cons p a { na with next := dn.next } ([] ++ B) ?_ ?_ ?_
      · rw [lookupNode_splice_prev h did dn a hprev hadid hnexta, hla]
        rfl
      · show na.prev = p
        exact hpa
      · show Threads (spliceHeap h did dn) (some a) dn.next ([] ++ B)
        simp only [if_true] at hIH
        simpa using hIH
    · have hprevna : dn.prev ≠ some a := by
        obtain ⟨a0, ha0, ha0mem⟩ :=
          (threads_mid_links h did dn hdn A' (some a) na.next B hta).2.1 hA'
        rw [ha0]
        intro he
        have : a ∈ A' := Option.some.inj he ▸ ha0mem
        exact hamem (by simp [this])
      have hnexta : dn.next ≠ some a := by
        intro he
        exact hamem (by simp [hanb a he])
      refine Threads.cons p a na (A' ++ B) ?_ ?_ ?_
      · rw [lookupNode_splice_other h did dn a hadid hprevna hnexta]
        exact hla
      · exact hpa
      · rw [if_neg hA'] at hIH
        exact hIH

theorem freeDevice_head (st : HostReg) (did : Nat) (dn : DevNode)
    (hdn : lookupNode st.heap did = some dn)
    (hdev : st.device = some did) (hprev : dn.prev = none) :
    freeDevice st did = { st with
      hook := st.hook.map (fun c => hookSweep did c c),
      heap := spliceHeap st.heap did dn,
      device := dn.next,
      busDevice := if st.hasBus then dn.next else st.busDevice } := by
  rcases hn : dn.next with _ | nx <;> rcases hbus : st.hasBus <;>
    simp [freeDevice, spliceHeap, hdn, hdev, hprev, hn, hbus]

theorem freeDevice_mid (st : HostReg) (did : Nat) (dn : DevNode) (pp : Nat)
    (hdn : lookupNode st.heap did = some dn)
    (hdev : st.device ≠ some did) (hprev : dn.prev = some pp) :
    freeDevice st did = { st with
      hook := st.hook.map (fun c => hookSweep did c c),
      heap := spliceHeap st.heap did dn } := by
  rcases hn : dn.next with _ | nx <;>
    simp [freeDevice, spliceHeap, hdn, hdev, hprev, hn]

/-- Claim C5: after `free_device(host, d)`, no hook on any phase chain of the
host has back-link `d`, and `d` appears in no device chain: the head pointer
and the surviving devices' prev/next links still thread the remaining ids,
`d`'s node is gone from the heap, and the `bus.device` mirror stays
consistent with the head. -/
theorem claimC5_free_device (st : HostReg) (did : Nat) (A B : List Nat)
    (ht : Threads st.heap none st.device (A ++ did :: B))
    (hnd : (A ++ did :: B).Nodup)
    (hbus : st.hasBus = true → st.busDevice = st.device) :
    (∀ c ∈ (freeDevice st did).hook, ∀ hk ∈ c, hk.dev ≠ some did) ∧
    Threads (freeDevice st did).heap none (freeDevice st did).device (A ++ B) ∧
    did ∉ A ++ B ∧
    lookupNode (freeDevice st did).heap did = none ∧
    ((freeDevice st did).hasBus = true →
      (freeDevice st did).busDevice = (freeDevice st did).device) := by
  obtain ⟨dn, hdn⟩ := threads_lookup_mem st.heap none st.device _ ht did (by simp)
  have hpok : ∀ pp, (none : Option Nat) = some pp → pp ∉ A ++ did :: B := by simp
  have hsplice := threads_splice st.heap did dn hdn A none st.device B ht hnd hpok
  have hdidAB : did ∉ A ++ B := by
    obtain ⟨hndA, hndDB, hdisj⟩ := List.nodup_append.mp hnd
    intro hmem
    rcases List.mem_append.mp hmem with hA | hB
    · exact hdisj hA (by simp)
    · exact (List.nodup_cons.mp hndDB).1 hB
  have hhooks : ∀ (r : HostReg),
      r.hook = st.hook.map (fun c => hookSweep did c c) →
      ∀ c ∈ r.hook, ∀ hk ∈ c, hk.dev ≠ some did := by
    intro r hr c hc hk hhk
    rw [hr] at hc
    obtain ⟨c0, hc0, rfl⟩ := List.mem_map.mp hc
    exact hookSweep_clean did c0 c0 (fun x hx _ => hx) hk hhk
  rcases A with _ | ⟨a, A'⟩
  · simp only [List.nil_append] at ht hnd hsplice hdidAB ⊢
    obtain ⟨hdev, n, hl, hp, htail⟩ := threads_list_cons_inv st.heap none st.device did B ht
    have hdn' := hdn
    rw [hl] at hdn'
    obtain rfl : dn = n := (Option.some.inj hdn').symm
    rw [freeDevice_head st did dn hdn hdev hp]
    refine ⟨hhooks _ rfl, ?_, hdidAB, lookupNode_splice_did st.heap did dn, ?_⟩
    · simpa using hsplice
    · intro hb
      simp only at hb
      simp [hb]
  · have hndc : (a :: (A' ++ did :: B)).Nodup := by simpa using hnd
    have hadid : a ≠ did := by
      intro e
      subst e
      exact (List.nodup_cons.mp hndc).1 (List.mem_append_right _ (by simp))
    obtain ⟨hdev, na, hla, hpa, hta⟩ := threads_list_cons_inv st.heap none st.device a
      (A' ++ did :: B) (by simpa using ht)
    have hdevne : st.device ≠ some did := by
      rw [hdev]
      intro he
      exact hadid (Option.some.inj he)
    obtain ⟨pp, hpp, _⟩ :=
      (threads_mid_links st.heap did dn hdn (a :: A') none st.device B
        (by simpa using ht)).2.1 (List.cons_ne_nil a A')
    rw [freeDevice_mid st did dn pp hdn hdevne hpp]
    refine ⟨hhooks _ rfl, ?_, hdidAB, lookupNode_splice_did st.heap did dn, ?_⟩
    · rw [if_neg (List.cons_ne_nil a A')] at hsplice
      simpa using hsplice
    · intro hb
      simp only at hb
      simpa using hbus hb

/-- Witness for C5: freeing the single registered device of `wHostC5`. -/
theorem claimC5_free_device_witness :
    (∀ c ∈ (freeDevice wHostC5 1).hook, ∀ hk ∈ c, hk.dev ≠ some 1) ∧
    Threads (freeDevice wHostC5 1).heap none (freeDevice wHostC5 1).device
      (([] : List Nat) ++ []) ∧
    (1 : Nat) ∉ (([] : List Nat) ++ []) ∧
    lookupNode (freeDevice wHostC5 1).heap 1 = none ∧
    ((freeDevice wHostC5 1).hasBus = true →
      (freeDevice wHostC5 1).busDevice = (freeDevice wHostC5 1).device) :=
  claimC5_free_device wHostC5 1 [] []
    (Threads.cons none 1 { devnum := 3, portno := 1, prev := none, next := none } []
      rfl rfl (Threads.nil (some 1)))
    (by decide) (by decide)

theorem threads_hd_none_inv (h : List (Nat × DevNode)) (p : Option Nat) (L : List Nat)
    (ht : Threads h p none L) : L = [] := by
  cases ht with
  | nil => rfl

/-- Counterexample to claim C8 as stated: inserting into a host whose bus
mirror is consistent (both null) makes the head `some 1` but leaves
`bus.device` untouched — the insertion code in `new_usb_device` never writes
the mirror (only `free_device`'s head-removal path does). -/
theorem claimC8_cex :
    (insertDevice wHostC8 1 3 1).hasBus = true ∧
    (insertDevice wHostC8 1 3 1).device = some 1 ∧
    (insertDevice wHostC8 1 3 1).busDevice ≠ (insertDevice wHostC8 1 3 1).device := by
  decide

/-- Claim C8 (amended): inserting a newly created device pushes it at the
head of the doubly-linked chain, preserving the link invariant (the new chain
threads `did :: L` with consistent back links); the `bus.device` mirror is
NOT updated by insertion (it is refreshed only when `free_device` removes the
chain head). -/
theorem claimC8_amended (st : HostReg) (did devnum portno : Nat) (L : List Nat)
    (ht : Threads st.heap none st.device L)
    (hnd : L.Nodup)
    (hfresh : lookupNode st.heap did = none) :
    Threads (insertDevice st did devnum portno).heap none
      (insertDevice st did devnum portno).device (did :: L) ∧
    (insertDevice st did devnum portno).device = some did ∧
    (did :: L).Nodup ∧
    (insertDevice st did devnum portno).busDevice = st.busDevice := by
  have hdidL : did ∉ L := by
    intro hmem
    obtain ⟨n, hn⟩ := threads_lookup_mem st.heap none st.device L ht did hmem
    rw [hfresh] at hn
    exact absurd hn (by simp)
  rcases hdev : st.device with _ | nx
  · have hL : L = [] := threads_hd_none_inv st.heap none L (hdev ▸ ht)
    subst hL
    have heq : insertDevice st did devnum portno = { st with
        heap := (did, { devnum := devnum, portno := portno, prev := none,
                        next := none }) :: st.heap,
        device := some did } := by
      simp [insertDevice, hdev]
    rw [heq]
    refine ⟨?_, rfl, by simp, rfl⟩
    refine Threads.cons none did (⟨devnum, portno, none, none⟩ : DevNode) [] ?_ rfl ?_
    · simp [lookupNode]
    · exact Threads.nil (some did)
  · rcases L with _ | ⟨b, L'⟩
    · exact absurd (threads_list_nil_inv st.heap none st.device ht) (by simp [hdev])
    obtain ⟨hb, nb, hlb, hpb, htb⟩ := threads_list_cons_inv st.heap none st.device b L' ht
    rw [hdev] at hb
    obtain rfl : nx = b := Option.some.inj hb
    have hbdid : nx ≠ did := fun e => hdidL (by simp [e])
    have hbL' : nx ∉ L' := (List.nodup_cons.mp hnd).1
    have heq : insertDevice st did devnum portno = { st with
        heap := setNode ((did, ⟨devnum, portno, none, some nx⟩) :: st.heap) nx
          (fun n => { n with prev := some did }),
        device := some did } := by
      simp [insertDevice, hdev]
    rw [heq]
    refine ⟨?_, rfl, by simp [hnd, hdidL], rfl⟩
    refine Threads.cons none did (⟨devnum, portno, none, some nx⟩ : DevNode)
      (nx :: L') ?_ rfl ?_
    · rw [lookupNode_set]
      simp [lookupNode, Ne.symm hbdid, hbdid]
    · show Threads _ (some did) (some nx) (nx :: L')
      refine Threads.cons (some did) nx { nb with prev := some did } L' ?_ rfl ?_
      · rw [lookupNode_set, if_pos rfl]
        have h1 : lookupNode ((did, (⟨devnum, portno, none, some nx⟩ : DevNode)) :: st.heap)
            nx = some nb := by
          simp [lookupNode, hbdid, Ne.symm hbdid, hlb]
        rw [h1]
        rfl
      · show Threads _ (some nx) nb.next L'
        refine threads_frame st.heap _ (some nx) nb.next L' htb ?_
        intro j hj
        have hjb : j ≠ nx := fun e => hbL' (e ▸ hj)
        have hjdid : j ≠ did := fun e => hdidL (by simp [e ▸ hj])
        rw [lookupNode_set]
        simp [lookupNode, hjb, hjdid, Ne.symm hjdid]

/-- Witness for C8 (amended): inserting device 1 into the empty host. -/
theorem claimC8_amended_witness :
    Threads (insertDevice wHostC8 1 3 1).heap none
      (insertDevice wHostC8 1 3 1).device (1 :: ([] : List Nat)) ∧
    (insertDevice wHostC8 1 3 1).device = some 1 ∧
    (1 :: ([] : List Nat)).Nodup ∧
    (insertDevice wHostC8 1 3 1).busDevice = wHostC8.busDevice :=
  claimC8_amended wHostC8 1 3 1 [] (Threads.nil none) (by decide) (by decide)

theorem modifyAt_append_length (pre : List α) (a : α) (suf : List α) (f : α → α) :
    modifyAt (pre ++ a :: suf) pre.length f = pre ++ f a :: suf := by
  induction pre with
  | nil => rfl
  | cons x p ih => simp [modifyAt, ih]

theorem cdesc_singleton (st : ExtractState) (hlen1 : st.cdesc.length ≤ 1)
    (hne : st.cdesc ≠ []) : ∃ c, st.cdesc = [c] := by
  rcases hsc : st.cdesc with _ | ⟨c, cs⟩
  · exact absurd hsc hne
  · refine ⟨c, ?_⟩
    rw [hsc] at hlen1
    have hcs : cs = [] := by
      rcases cs with _ | ⟨d, ds⟩
      · rfl
      · simp at hlen1
    rw [hcs]

theorem extractStep_total (st : ExtractState) (hasC hasI : Bool) (last ty : Nat)
    (bytes : List Nat)
    (hInv : ExtractInv st hasC hasI last)
    (hok : (if ty = USB_DT_CONFIG then true
            else if ty = USB_DT_INTERFACE then hasC
            else if ty = USB_DT_ENDPOINT then hasI
            else decide (last ≠ USB_DT_ENDPOINT)) = true)
    (hcfg : ty = USB_DT_CONFIG → st.cdesc = []) :
    totalAttributed { extractStep ty bytes st with lastType := ty } =
      totalAttributed st + bytes.length ∧
    ExtractInv { extractStep ty bytes st with lastType := ty }
      (hasC || decide (ty = USB_DT_CONFIG)) (hasI || decide (ty = USB_DT_INTERFACE)) ty ∧
    ({ extractStep ty bytes st with lastType := ty }).cdesc.length =
      st.cdesc.length + (if ty = USB_DT_CONFIG then 1 else 0) := by
  obtain ⟨hlast, hC, hlen1, hnI, hI, hIdet, hC2, hI4⟩ := hInv
  by_cases h2 : ty = USB_DT_CONFIG
  · subst h2
    have hnil := hcfg rfl
    have hInone : st.idescp = none := by
      rcases hi : st.idescp with _ | ⟨ci, ai⟩
      · rfl
      · obtain ⟨_, c, _, _, hc, _⟩ := hIdet ci ai hi
        rw [hnil] at hc
        exact absurd hc (by simp)
    have hIfalse : hasI = false := by
      cases hhI : hasI
      · rfl
      · rw [hhI] at hI
        have := hI.mp rfl
        rw [hInone] at this
        exact absurd this (by simp)
    have he : ({ extractStep USB_DT_CONFIG bytes st with lastType := USB_DT_CONFIG }) =
        { cdesc := [{ raw := bytes, extra := [], altsetting := [] }], odesc := st.odesc,
          idescp := st.idescp, nIdesc := 0, nEdesc := 0, lastType := USB_DT_CONFIG } := by
      simp [extractStep, hnil]
    rw [he]
    refine ⟨?_, ⟨rfl, ?_, ?_, ?_, ?_, ?_, ?_, ?_⟩, ?_⟩
    · simp [totalAttributed, hnil, configBytes]
    · simp
    · simp
    · intro c hc
      obtain rfl : ({ raw := bytes, extra := [], altsetting := [] } : ConfigDesc) = c := by
        simpa using hc
      rfl
    · simp [hIfalse, hInone, USB_DT_CONFIG, USB_DT_INTERFACE]
    · intro ci ai hsome
      simp only [hInone] at hsome
      exact absurd hsome (by simp)
    · intro _
      simp
    · intro habs
      exact absurd habs (by decide)
    · simp [hnil]
  · by_cases h4 : ty = USB_DT_INTERFACE
    · subst h4
      rw [if_neg h2, if_pos rfl] at hok
      obtain ⟨c, hsc⟩ := cdesc_singleton st hlen1 (hC.mp hok)
      have hni := hnI c hsc
      have he : ({ extractStep USB_DT_INTERFACE bytes st with lastType := USB_DT_INTERFACE }) =
          { cdesc := [{ c with altsetting :=
                c.altsetting ++ [{ raw := bytes, extra := [], endpoint := [] }] }],
            odesc := st.odesc, idescp := some (0, st.nIdesc), nIdesc := st.nIdesc + 1,
            nEdesc := 0, lastType := USB_DT_INTERFACE } := by
        simp [extractStep, h2, hsc, modifyAt, hni, takePad_length_self]
      rw [he]
      refine ⟨?_, ⟨rfl, ?_, ?_, ?_, ?_, ?_, ?_, ?_⟩, ?_⟩
      · simp [totalAttributed, hsc, configBytes, altBytes]
        omega
      · simp [hok]
      · simp
      · intro c' hc'
        obtain rfl : ({ c with altsetting :=
            c.altsetting ++ [{ raw := bytes, extra := [], endpoint := [] }] } : ConfigDesc)
            = c' := by simpa using hc'
        simp [hni]
      · simp
      · intro ci ai hsome
        injection hsome with hp
        injection hp with hci hai
        refine ⟨hci.symm, ⟨{ c with altsetting :=
            c.altsetting ++ [{ raw := bytes, extra := [], endpoint := [] }] },
          c.altsetting, { raw := bytes, extra := [], endpoint := [] }, rfl, rfl, ?_, rfl⟩⟩
        rw [← hai, hni]
      · intro habs
        exact absurd habs (by decide)
      · intro _
        simp
      · simp [hsc, h2]
    · by_cases h5 : ty = USB_DT_ENDPOINT
      · subst h5
        rw [if_neg h2, if_neg h4, if_pos rfl] at hok
        have hIs : st.idescp.isSome = true := hI.mp hok
        rcases hi : st.idescp with _ | ⟨ci, ai⟩
        · rw [hi] at hIs
          exact absurd hIs (by simp)
        obtain ⟨rfl, c, pre, a, hsc, halt, rfl, hne⟩ := hIdet ci ai hi
        have hni := hnI c hsc
        have hCtrue : hasC = true := hC.mpr (by simp [hsc])
        have he : ({ extractStep USB_DT_ENDPOINT bytes st with lastType := USB_DT_ENDPOINT }) =
            { cdesc := [{ c with altsetting :=
                  pre ++ [{ a with endpoint := a.endpoint ++ [mkEndpointDesc bytes] }] }],
              odesc := st.odesc, idescp := st.idescp, nIdesc := st.nIdesc,
              nEdesc := st.nEdesc + 1, lastType := USB_DT_ENDPOINT } := by
          simp [extractStep, h2, h4, hi, hsc, halt, modifyAt, modifyAt_append_length,
            hne, takePad_length_self]
        rw [he]
        refine ⟨?_, ⟨rfl, ?_, ?_, ?_, ?_, ?_, ?_, ?_⟩, ?_⟩
        · simp [totalAttributed, hsc, configBytes, halt, altBytes, endpointBytes,
            mkEndpointDesc]
          omega
        · simp [hCtrue]
        · simp
        · intro c' hc'
          obtain rfl : ({ c with altsetting :=
              pre ++ [{ a with endpoint := a.endpoint ++ [mkEndpointDesc bytes] }] } :
              ConfigDesc) = c' := by simpa using hc'
          simp [hni, halt]
        · simp [hok, hi]
        · intro ci' ai' hsome
          rw [hi] at hsome
          injection hsome with hp
          injection hp with hci hai
          refine ⟨hci.symm, ⟨{ c with altsetting :=
              pre ++ [{ a with endpoint := a.endpoint ++ [mkEndpointDesc bytes] }] },
            pre, { a with endpoint := a.endpoint ++ [mkEndpointDesc bytes] },
            rfl, rfl, hai.symm, ?_⟩⟩
          simp [hne]
        · intro habs
          exact absurd habs (by decide)
        · intro habs
          exact absurd habs (by decide)
        · simp [hsc, h2]
      · rw [if_neg h2, if_neg h4, if_neg h5] at hok
        have hlast5 : last ≠ USB_DT_ENDPOINT := by simpa using hok
        by_cases hl2 : last = USB_DT_CONFIG
        · obtain ⟨c, hsc⟩ := cdesc_singleton st hlen1 (hC2 hl2)
          have hni := hnI c hsc
          have he : ({ extractStep ty bytes st with lastType := ty }) =
              { cdesc := [{ c with extra := c.extra ++ bytes }], odesc := st.odesc,
                idescp := st.idescp, nIdesc := st.nIdesc, nEdesc := st.nEdesc,
                lastType := ty } := by
            simp [extractStep, h2, h4, h5, hlast, hl2, hsc, modifyLast, modifyAt]
          rw [he]
          refine ⟨?_, ⟨rfl, ?_, ?_, ?_, ?_, ?_, ?_, ?_⟩, ?_⟩
          · simp [totalAttributed, hsc, configBytes]
            omega
          · simp [hC.mpr (by simp [hsc])]
          · simp
          · intro c' hc'
            obtain rfl : ({ c with extra := c.extra ++ bytes } : ConfigDesc) = c' := by
              simpa using hc'
            simp [hni]
          · simp [h4, hI]
          · intro ci ai hsome
            obtain ⟨hci, c0, pre, a, hsc0, halt, hai, hne⟩ := hIdet ci ai hsome
            have hc0 : c0 = c := by
              rw [hsc] at hsc0
              simpa using hsc0.symm
            subst hc0
            exact ⟨hci, ⟨{ c0 with extra := c0.extra ++ bytes }, pre, a, rfl,
              by simp [halt], hai, hne⟩⟩
          · intro habs
            exact absurd habs h2
          · intro habs
            exact absurd habs h4
          · simp [hsc, h2]
        · by_cases hl4 : last = USB_DT_INTERFACE
          · have hIs := hI4 hl4
            rcases hi : st.idescp with _ | ⟨ci, ai⟩
            · rw [hi] at hIs
              exact absurd hIs (by simp)
            obtain ⟨rfl, c, pre, a, hsc, halt, rfl, hne⟩ := hIdet ci ai hi
            have hni := hnI c hsc
            have hd42 : ¬(USB_DT_INTERFACE = USB_DT_CONFIG) := by decide
            have he : ({ extractStep ty bytes st with lastType := ty }) =
                { cdesc := [{ c with altsetting :=
                      pre ++ [{ a with extra := a.extra ++ bytes }] }],
                  odesc := st.odesc, idescp := st.idescp, nIdesc := st.nIdesc,
                  nEdesc := st.nEdesc, lastType := ty } := by
              simp [extractStep, h2, h4, h5, hlast, hl2, hl4, hd42, hi, hsc, halt,
                modifyAt, modifyAt_append_length]
            rw [he]
            refine ⟨?_, ⟨rfl, ?_, ?_, ?_, ?_, ?_, ?_, ?_⟩, ?_⟩
            · simp [totalAttributed, hsc, configBytes, halt, altBytes]
              omega
            · simp [hC.mpr (by simp [hsc])]
            · simp
            · intro c' hc'
              obtain rfl : ({ c with altsetting :=
                  pre ++ [{ a with extra := a.extra ++ bytes }] } : ConfigDesc) = c' := by
                simpa using hc'
              simp [hni, halt]
            · simp [h4, hI, hi]
            · intro ci' ai' hsome
              rw [hi] at hsome
              injection hsome with hp
              injection hp with hci hai
              exact ⟨hci.symm, ⟨{ c with altsetting :=
                  pre ++ [{ a with extra := a.extra ++ bytes }] },
                pre, { a with extra := a.extra ++ bytes }, rfl, rfl, hai.symm, hne⟩⟩
            · intro habs
              exact absurd habs h2
            · intro habs
              exact absurd habs h4
            · simp [hsc, h2]
          · have he : ({ extractStep ty bytes st with lastType := ty }) =
                { cdesc := st.cdesc, odesc := st.odesc ++ bytes, idescp := st.idescp,
                  nIdesc := st.nIdesc, nEdesc := st.nEdesc, lastType := ty } := by
              have hst2 : st.lastType ≠ USB_DT_CONFIG := by rw [hlast]; exact hl2
              have hst4 : st.lastType ≠ USB_DT_INTERFACE := by rw [hlast]; exact hl4
              have hst5 : st.lastType ≠ USB_DT_ENDPOINT := by rw [hlast]; exact hlast5
              simp [extractStep, h2, h4, h5, hst2, hst4, hst5]
            rw [he]
            refine ⟨?_, ⟨rfl, ?_, ?_, ?_, ?_, ?_, ?_, ?_⟩, ?_⟩
            · simp [totalAttributed]
              omega
            · simp [h2, hC]
            · exact hlen1
            · exact hnI
            · simp [h4, hI]
            · exact hIdet
            · intro habs
              exact absurd habs h2
            · intro habs
              exact absurd habs h4
            · simp [h2]

theorem extractLoop_total (fuel : Nat) :
    ∀ (rest : List Nat) (st : ExtractState) (hasC hasI : Bool) (last : Nat),
      rest.length ≤ fuel →
      tilesExactly fuel rest = true →
      streamOk fuel hasC hasI last rest = true →
      st.cdesc.length + countConfigRecords fuel rest ≤ 1 →
      ExtractInv st hasC hasI last →
      totalAttributed (extractLoop fuel rest st) = totalAttributed st + rest.length := by
  induction fuel with
  | zero =>
    intro rest st hasC hasI last hlen htiles hok hcnt hInv
    have hnil : rest = [] := List.eq_nil_of_length_eq_zero (by omega)
    subst hnil
    simp [extractLoop]
  | succ fuel ih =>
    intro rest st hasC hasI last hlen htiles hok hcnt hInv
    rcases rest with _ | ⟨x, r⟩
    · simp [extractLoop]
    simp only [tilesExactly, List.isEmpty_cons, Bool.false_eq_true, if_false,
      List.headD_cons, Bool.and_eq_true, decide_eq_true_eq] at htiles
    obtain ⟨⟨hx0, hxle⟩, htrest⟩ := htiles
    simp only [streamOk, List.headD_cons] at hok
    rw [if_neg hx0] at hok
    rw [Bool.and_eq_true] at hok
    obtain ⟨hokc, hokrest⟩ := hok
    simp only [countConfigRecords, List.headD_cons] at hcnt
    rw [if_neg hx0] at hcnt
    have hcfg : (x :: r).getD 1 0 = USB_DT_CONFIG → st.cdesc = [] := by
      intro he
      rw [if_pos he] at hcnt
      refine List.eq_nil_of_length_eq_zero ?_
      by_cases hstop : (x :: r).length ≤ x
      · rw [if_pos hstop] at hcnt
        omega
      · rw [if_neg hstop] at hcnt
        omega
    obtain ⟨hTot, hInv', hLen'⟩ := extractStep_total st hasC hasI last ((x :: r).getD 1 0)
      ((x :: r).take x) hInv hokc hcfg
    have hbl : ((x :: r).take x).length = x := by
      simp only [List.length_take, List.length_cons]
      simp only [List.length_cons] at hxle
      omega
    rw [extractLoop_succ]
    simp only [List.headD_cons]
    rw [if_neg hx0]
    by_cases hstop : (x :: r).length ≤ x
    · rw [if_pos hstop]
      rw [hTot, hbl]
      have hxeq : (x :: r).length = x := le_antisymm hstop hxle
      omega
    · rw [if_neg hstop]
      rw [if_neg hstop] at htrest hokrest hcnt
      have hcnt' : ({ extractStep ((x :: r).getD 1 0) ((x :: r).take x) st with
          lastType := (x :: r).getD 1 0 } : ExtractState).cdesc.length +
          countConfigRecords fuel ((x :: r).drop x) ≤ 1 := by
        by_cases hty2 : (x :: r).getD 1 0 = USB_DT_CONFIG
        · rw [if_pos hty2] at hcnt
          rw [hLen', if_pos hty2]
          omega
        · rw [if_neg hty2] at hcnt
          rw [hLen', if_neg hty2]
          omega
      have hrec := ih ((x :: r).drop x)
        { extractStep ((x :: r).getD 1 0) ((x :: r).take x) st with
          lastType := (x :: r).getD 1 0 }
        (hasC || decide ((x :: r).getD 1 0 = USB_DT_CONFIG))
        (hasI || decide ((x :: r).getD 1 0 = USB_DT_INTERFACE))
        ((x :: r).getD 1 0)
        (by
          simp only [List.length_drop, List.length_cons]
          simp only [List.length_cons] at hlen
          omega)
        htrest hokrest hcnt' hInv'
      rw [hrec, hTot, hbl]
      simp only [List.length_drop, List.length_cons]
      simp only [List.length_cons] at hxle
      omega

/-- Claim C1 (amended): for every CONFIG descriptor byte stream `B` whose
records all have nonzero `bLength` and exactly tile `B`, which contains at
most one CONFIG record, and in which no record is dropped by the walk (every
INTERFACE record has an open configuration, every ENDPOINT record an open
alt-setting, and no non-standard record immediately follows an ENDPOINT
record), the total bytes attributed across all configuration records,
interface records, endpoint records, `extra` buffers and the global other
bucket equals `|B|`.  (As stated the claim fails — see the counterexample:
dropped records are attributed to no bucket.) -/
theorem claimC1_amended (buf : List Nat)
    (htiles : tilesExactly buf.length buf = true)
    (hok : streamOk buf.length false false 0 buf = true)
    (hcnt : countConfigRecords buf.length buf ≤ 1) :
    totalAttributed (extractConfigDescriptors buf) = buf.length := by
  have hInv0 : ExtractInv initExtract false false 0 := by
    refine ⟨rfl, by simp [initExtract], by simp [initExtract], ?_, by simp [initExtract],
      ?_, fun h => absurd h (by decide), fun h => absurd h (by decide)⟩
    · intro c hc
      simp [initExtract] at hc
    · intro ci ai hsome
      simp [initExtract] at hsome
  by_cases h0 : buf.length = 0
  · rw [extractConfigDescriptors, if_pos h0]
    rw [h0]
    simp [totalAttributed, initExtract]
  · rw [extractConfigDescriptors, if_neg h0]
    have := extractLoop_total buf.length buf initExtract false false 0 le_rfl htiles hok
      (by simpa [initExtract] using hcnt) hInv0
    rw [this]
    simp [totalAttributed, initExtract]

/-- Witness for C1 (amended) on the stream CONFIG(9) INTERFACE(9) HID(9)
ENDPOINT(7). -/
theorem claimC1_amended_witness :
    totalAttributed (extractConfigDescriptors wBufC1) = wBufC1.length :=
  claimC1_amended wBufC1 (by decide) (by decide) (by decide)
